import Mathlib

/-!
Verification development for the `fmridenoise` BIDS adapter interfaces
(`fmridenoise/interfaces/bids.py`): a shallow embedding of
`BIDSGrab._run_interface` (dataset grabbing: derivative-scope resolution,
task resolution, functional/confound file pairing, repetition-time
extraction) and `BIDSDataSink._list_outputs` (derivative writing), together
with theorems settling the specification's claims about them.

The external BIDS index (`bids.BIDSLayout`) is modelled as a `Dataset`: a
list of indexed files each carrying its path, its entity dictionary, the
scope (pipeline name) it belongs to, and its `RepetitionTime` metadata; a
list of the tasks the index knows (`layout.get_tasks()`); and the state of
each derivative directory's `dataset_description.json` document.
`layout.get(...)` is modelled as filtering the file list: a file matches a
query iff for every filter key the file has that entity and its value is
admitted by the filter value (a single string, or any-of for a list), and,
when a `scope=` argument is given, the file's scope is in the given list.

Python dictionaries of filters are modelled as association lists with
unique-key update semantics (`dictInsert` / `dictUpdate`): an existing key
keeps its position and gets the new value, a fresh key is appended. This
matters because `_run_interface` mutates the single `filter_conf` dict in
place across loop iterations (`filter_conf.update(filter_entities)` at
bids.py line 111), which the embedding reproduces faithfully.
-/

/-- A filter value of a `layout.get` keyword query: a single string, or a
list meaning any-of (as in `extension=['nii', 'nii.gz']`). -/
inductive FilterVal where
  | one (s : String)
  | many (l : List String)
deriving DecidableEq, Repr

/-- A keyword-filter dictionary, as an association list with unique keys
maintained by `dictInsert`/`dictUpdate`. -/
abbrev QFilter := List (String × FilterVal)

/-- An entity dictionary of a BIDS file (`file.get_entities()`),
e.g. subject, session, datatype, task, extension, suffix, desc. -/
abbrev Entity := List (String × String)

deriving instance DecidableEq for Except

/-! Character-list string helpers. The embedding works on `String.data`
(lists of characters) so that every operation evaluates by kernel
reduction; each helper mirrors the corresponding Python string method. -/

/-- Does `hay` start with `needle`? -/
def headMatch : List Char → List Char → Bool
  | [], _ => true
  | _ :: _, [] => false
  | a :: as, b :: bs => a == b && headMatch as bs

/-- Does `needle` occur contiguously inside the second list? -/
def hasSub (needle : List Char) : List Char → Bool
  | [] => headMatch needle []
  | c :: cs => headMatch needle (c :: cs) || hasSub needle cs

/-- A string `w` names a path `p` when `p` occurs verbatim inside `w`. -/
def mentions (w p : String) : Bool :=
  hasSub p.data w.data

/-- Python `s.startswith(pre)`. -/
def strStarts (s pre : String) : Bool :=
  headMatch pre.data s.data

/-- Python `s.endswith(suf)`. -/
def strEnds (s suf : String) : Bool :=
  headMatch suf.data.reverse s.data.reverse

/-- ASCII lower-casing of one character (`str.lower` restricted to the
ASCII range, which covers the extension matching it is used for). -/
def charLower (c : Char) : Char :=
  if 'A' ≤ c && c ≤ 'Z' then Char.ofNat (c.toNat + 32) else c

/-- Split a character list at `'/'` separators, like `s.split('/')`. -/
def splitSlash : List Char → List (List Char)
  | [] => [[]]
  | c :: cs =>
    let r := splitSlash cs
    if c == '/' then [] :: r
    else (c :: r.headI) :: r.tail

/-- Re-join components with `'/'`, like `'/'.join(parts)`. -/
def joinSlash : List (List Char) → List Char
  | [] => []
  | [x] => x
  | x :: xs => x ++ '/' :: joinSlash xs

/-- One file of the BIDS index: its path, entity dictionary, the scope
(pipeline name) it was indexed under, and the `RepetitionTime` field of its
metadata when present (`layout.get_metadata(path)['RepetitionTime']`). -/
structure BIDSFile where
  path : String
  entities : Entity
  scope : String
  repetitionTime : Option Rat
deriving DecidableEq, Repr

/-- State of a derivative directory's `dataset_description.json`: present
and well formed with a `PipelineDescription.Name` field, present but lacking
that field, or present but not parseable as JSON. A path with no entry at
all models a missing file. -/
inductive DescState where
  | malformed
  | missingName
  | ok (name : String)
deriving DecidableEq, Repr

/-- The dataset as the external index exposes it. -/
structure Dataset where
  files : List BIDSFile
  tasks : List String
  descriptions : List (String × DescState)
deriving Repr

/-- `file.get_entities()[k]`. -/
def entityVal (f : BIDSFile) (k : String) : Option String :=
  List.lookup k f.entities

/-- Does a filter value admit an entity value? -/
def valMatches : FilterVal → String → Bool
  | .one t, s => s == t
  | .many l, s => l.contains s

/-- A file satisfies every (key, value) constraint of a filter dictionary:
the file must carry the entity and its value must be admitted. -/
def matchesFilter (flt : QFilter) (f : BIDSFile) : Bool :=
  flt.all fun kv =>
    match entityVal f kv.1 with
    | none => false
    | some s => valMatches kv.2 s

/-- The `scope=` argument: omitted means all scopes. -/
def matchesScope : Option (List String) → BIDSFile → Bool
  | none, _ => true
  | some sc, f => sc.contains f.scope

/-- `layout.get(scope=…, **flt)`: the indexed files satisfying the scope and
every keyword filter, in index order. -/
def layoutGet (ds : Dataset) (scope : Option (List String)) (flt : QFilter) :
    List BIDSFile :=
  ds.files.filter fun f => matchesScope scope f && matchesFilter flt f

/-- Python `d[k] = v` on a dict: replace the value at an existing key in
place, or append the fresh key. -/
def dictInsert : QFilter → String → FilterVal → QFilter
  | [], k, v => [(k, v)]
  | (k', v') :: rest, k, v =>
    if k' == k then (k', v) :: rest else (k', v') :: dictInsert rest k v

/-- Python `d.update(u)` for a string-valued update dict (each value becomes
a single-string filter value, as in `filter_conf.update(filter_entities)`). -/
def dictUpdate : QFilter → List (String × String) → QFilter
  | d, [] => d
  | d, (k, v) :: rest => dictUpdate (dictInsert d k (.one v)) rest

/-- `keys_entities = ['subject', 'session', 'datatype', 'task']` (line 87). -/
def keysEntities : List String := ["subject", "session", "datatype", "task"]

/-- `filter_entities = {key: value for key, value in entity_bold.items() if
key in keys_entities}` (lines 108-110). -/
def restrictEntities (e : Entity) : Entity :=
  e.filter fun kv => keysEntities.contains kv.1

/-- `filter_fmri` (lines 88-93). -/
def filterFmri (task : List String) : QFilter :=
  [("extension", .many ["nii", "nii.gz"]), ("suffix", .one "bold"),
   ("desc", .one "preproc"), ("task", .many task)]

/-- `filter_conf` as first defined (lines 94-98), before the loop mutates it. -/
def confFilter0 : QFilter :=
  [("extension", .one "tsv"), ("suffix", .one "regressors"),
   ("desc", .one "confounds")]

/-- The warning printed when several regressor files match (lines 122-125):
it interpolates the functional file's path and the selected file's path. -/
def mkWarning (fmriPath confPath : String) : String :=
  "Warning: Multiple regressors found for file " ++ fmriPath ++
    ".\nSelecting " ++ confPath

/-- Everything `_run_interface` can raise: the two explicit `raise
Exception`s of the scope loop plus a propagated `json.JSONDecodeError`
(lines 59-68), the `ValueError` of task validation (line 82), the
`FileNotFoundError` of the pairing loop (line 116), and the `IndexError` /
`KeyError` the TR loop can hit (lines 141-142). -/
inductive GrabError where
  | descMissing (derivativePath : String)
  | descMalformed (derivativePath : String)
  | descNameMissing (derivativePath : String)
  | taskNotFound (task : String)
  | regressorNotFound (fmriPath : String)
  | noBoldForTask (task : String)
  | noRepetitionTime (path : String)
deriving DecidableEq, Repr

/-- One pass of the scope loop body (lines 56-68): read the derivative's
`dataset_description.json` and extract `PipelineDescription.Name`. -/
def resolveDeriv (ds : Dataset) (derivativePath : String) :
    Except GrabError String :=
  match List.lookup derivativePath ds.descriptions with
  | none => .error (.descMissing derivativePath)
  | some .malformed => .error (.descMalformed derivativePath)
  | some .missingName => .error (.descNameMissing derivativePath)
  | some (.ok n) => .ok n

/-- The scope loop itself: one pipeline name per derivative path, stopping
at the first failure. -/
def resolveScope (ds : Dataset) : List String → Except GrabError (List String)
  | [] => .ok []
  | p :: rest =>
    match resolveDeriv ds p with
    | .error e => .error e
    | .ok n =>
      match resolveScope ds rest with
      | .error e => .error e
      | .ok ns => .ok (n :: ns)

/-- The validation loop of lines 80-83: every requested task must be among
`layout.get_tasks()`; fails at the first one that is not. -/
def checkTasks (ds : Dataset) : List String → Except GrabError Unit
  | [] => .ok ()
  | t :: rest =>
    if ds.tasks.contains t then checkTasks ds rest
    else .error (.taskNotFound t)

/-- Task resolution (lines 77-84): an undefined `task` input means every
task of the index, a given list is validated and used as is. -/
def resolveTasks (ds : Dataset) :
    Option (List String) → Except GrabError (List String)
  | none => .ok ds.tasks
  | some ts =>
    match checkTasks ds ts with
    | .error e => .error e
    | .ok _ => .ok ts

/-- The `derivatives` input: `traits.Either(traits.Str, traits.List(Str))`. -/
inductive DerivInput where
  | str (s : String)
  | list (l : List String)
deriving DecidableEq, Repr

/-- Default `derivatives='fmriprep'` (input spec lines 24-30) together with
the `isinstance(..., str)` wrapping of lines 47-48. -/
def normalizeDerivatives : Option DerivInput → List String
  | none => ["fmriprep"]
  | some (.str s) => [s]
  | some (.list l) => l

/-- `os.path.join(a, b)` for the two-argument uses of the code. -/
def joinPath (a b : String) : String :=
  if strStarts b "/" then b
  else if strEnds a "/" || a == "" then a ++ b
  else a ++ "/" ++ b

/-- What the pairing loop of lines 101-131 accumulates, plus the final
state of the mutated `filter_conf` dict. -/
structure LoopOut where
  fmriPrep : List String
  confRaw : List String
  entities : List Entity
  warnings : List String
  finalFilter : QFilter
deriving DecidableEq, Repr

/-- The pairing loop (lines 101-131), run over the functional files the main
query returned, threading the in-place mutated `filter_conf` dictionary:
for each functional file its restricted entities are merged into the one
shared dict, the confound query is run with that dict, an empty result
raises `FileNotFoundError`, several results print a warning, and the first
result is paired with the file. -/
def grabStep (ds : Dataset) (scope : List String) :
    List BIDSFile → QFilter → Except GrabError LoopOut
  | [], fc => .ok ⟨[], [], [], [], fc⟩
  | f :: rest, fc =>
    match layoutGet ds (some scope) (dictUpdate fc (restrictEntities f.entities)) with
    | [] => .error (.regressorNotFound f.path)
    | c :: cs =>
      match grabStep ds scope rest (dictUpdate fc (restrictEntities f.entities)) with
      | .error e => .error e
      | .ok out =>
        .ok ⟨f.path :: out.fmriPrep, c.path :: out.confRaw,
             restrictEntities f.entities :: out.entities,
             (if cs.isEmpty then [] else [mkWarning f.path c.path])
               ++ out.warnings,
             out.finalFilter⟩

/-- The TR loop (lines 134-143): per task, copy `filter_fmri`, pin the task,
take the first match of an unscoped query, and read its `RepetitionTime`. -/
def extractTRs (ds : Dataset) (ffmri : QFilter) :
    List String → Except GrabError (List (String × Rat))
  | [] => .ok []
  | t :: rest =>
    match layoutGet ds none (dictInsert ffmri "task" (.one t)) with
    | [] => .error (.noBoldForTask t)
    | ex :: _ =>
      match ex.repetitionTime with
      | none => .error (.noRepetitionTime ex.path)
      | some tr =>
        match extractTRs ds ffmri rest with
        | .error e => .error e
        | .ok l => .ok ((t, tr) :: l)

/-- The outputs `_run_interface` stores (lines 145-148). -/
structure GrabResult where
  fmriPrep : List String
  confRaw : List String
  entities : List Entity
  trDict : List (String × Rat)
  warnings : List String
deriving DecidableEq, Repr

/-- `BIDSGrab._run_interface` (lines 42-150): normalize the derivatives
input, resolve each derivative's pipeline name, resolve the tasks, query
the preprocessed functional files, pair each with a confound file, and
extract one repetition time per task. Any raised exception aborts the call
with no outputs. -/
def runBIDSGrab (ds : Dataset) (bidsDir : String)
    (taskInput : Option (List String)) (derivInput : Option DerivInput) :
    Except GrabError GrabResult :=
  let derivPaths := (normalizeDerivatives derivInput).map fun d =>
    joinPath (joinPath bidsDir "derivatives") d
  match resolveScope ds derivPaths with
  | .error e => .error e
  | .ok scope =>
    match resolveTasks ds taskInput with
    | .error e => .error e
    | .ok task =>
      match grabStep ds scope (layoutGet ds (some scope) (filterFmri task))
          confFilter0 with
      | .error e => .error e
      | .ok out =>
        match extractTRs ds (filterFmri task) task with
        | .error e => .error e
        | .ok trs =>
          .ok ⟨out.fmriPrep, out.confRaw, out.entities, trs, out.warnings⟩

/-- Replay of the states the shared `filter_conf` dict goes through: entry i
is the dict the confound query of the i-th functional file runs with. -/
def confFilterSeq : List BIDSFile → QFilter → List QFilter
  | [], _ => []
  | f :: rest, fc =>
    let fc' := dictUpdate fc (restrictEntities f.entities)
    fc' :: confFilterSeq rest fc'

/-- The confound query results the loop sees, one per functional file. -/
def confQuerySeq (ds : Dataset) (scope : List String)
    (files : List BIDSFile) (fc : QFilter) : List (List BIDSFile) :=
  (confFilterSeq files fc).map (layoutGet ds (some scope))

/-- The confound filter the specification describes for a functional file:
the fixed confound filters further constrained by that file's entity
mapping restricted to `keys_entities`, independent of any other file. -/
def perFileConfFilter (f : BIDSFile) : QFilter :=
  dictUpdate confFilter0 (restrictEntities f.entities)

/-- Path of the first file of a query result, `""` on an empty result. -/
def headPath : List BIDSFile → String
  | [] => ""
  | c :: _ => c.path

/-- The warnings the loop prints, computed from the functional files and
their confound query results. -/
def warningsSpec : List BIDSFile → List (List BIDSFile) → List String
  | [], _ => []
  | _ :: _, [] => []
  | f :: fs, q :: qs =>
    (if q.length ≤ 1 then [] else [mkWarning f.path (headPath q)])
      ++ warningsSpec fs qs

/-- The repetition time the spec assigns to a task: the `RepetitionTime`
metadata of the first file matching the base functional filter restricted
to that task (none when no file matches or the field is absent). -/
def specTRlookup (ds : Dataset) (ffmri : QFilter) (t : String) : Option Rat :=
  match layoutGet ds none (dictInsert ffmri "task" (.one t)) with
  | [] => none
  | ex :: _ => ex.repetitionTime

/-- Python `os.path.splitext` on a basename, as a pair (stem, extension in
chars including the dot): split at the last dot, except when every
character before that dot is itself a dot (leading-dot names keep no
extension). -/
def splitextChars (b : List Char) : List Char × List Char :=
  match (List.range b.length).foldl
      (fun acc i => if b.get? i == some '.' then some i else acc) none with
  | none => (b, [])
  | some i =>
    if (b.take i).all (· == '.') then (b, [])
    else (b.take i, b.drop i)

/-- The multi-part extensions `nipype.utils.filemanip.split_filename`
treats specially. -/
def specialExts : List String := [".nii.gz", ".tar.gz", ".niml.dset"]

/-- `nipype.utils.filemanip.split_filename(fname)`: directory part,
basename stem, extension; a special extension is matched case-insensitively
at the end (when the basename is strictly longer than it), otherwise
`os.path.splitext` applies. -/
def splitFilename (fname : String) : String × String × String :=
  let parts := splitSlash fname.data
  let pth := joinSlash parts.dropLast
  let base := parts.getLastD []
  match specialExts.find? fun ext =>
      decide (ext.data.length < base.length)
        && headMatch ext.data.reverse (base.map charLower).reverse with
  | some ext =>
    let k := base.length - ext.data.length
    (⟨pth⟩, ⟨base.take k⟩, ⟨base.drop k⟩)
  | none =>
    let se := splitextChars base
    (⟨pth⟩, ⟨se.1⟩, ⟨se.2⟩)

/-- What `BIDSDataSink._list_outputs` can raise: the `KeyError` of
`entity['subject']` (line 178) and a failing `copyfile` on a missing
source (line 183). -/
inductive SinkError where
  | missingSubject (inFile : String)
  | missingSource (inFile : String)
deriving DecidableEq, Repr

/-- The filesystem fragment the sink touches: path → file contents. -/
abbrev FS := List (String × String)

/-- Write a file: replace the contents at an existing path, or add the
path. -/
def fsSet : FS → String → String → FS
  | [], k, v => [(k, v)]
  | (k', v') :: rest, k, v =>
    if k' == k then (k', v) :: rest else (k', v') :: fsSet rest k v

/-- The destination filename composed at lines 179-182:
`<base>/derivatives/fmridenoise/sub-<subject>/<stem>_pipeline-<name><ext>`
with stem and extension split off the input file by `split_filename`. -/
def sinkDest (baseDir pipelineName subNum inFile : String) : String :=
  baseDir ++ "/derivatives/fmridenoise/sub-" ++ subNum ++ "/"
    ++ (splitFilename inFile).2.1 ++ "_pipeline-" ++ pipelineName
    ++ (splitFilename inFile).2.2

/-- The loop of `BIDSDataSink._list_outputs` (lines 176-185) over the
zipped (entity, input file) pairs: read the subject entity, compose
`<base>/derivatives/fmridenoise/sub-<subject>/<stem>_pipeline-<name><ext>`,
copy the input file there, and collect the destination paths in order. -/
def sinkLoop (baseDir pipelineName : String) :
    List (Entity × String) → FS → Except SinkError (List String × FS)
  | [], fs => .ok ([], fs)
  | (entity, inFile) :: rest, fs =>
    match List.lookup "subject" entity with
    | none => .error (.missingSubject inFile)
    | some subNum =>
      match List.lookup inFile fs with
      | none => .error (.missingSource inFile)
      | some content =>
        match sinkLoop baseDir pipelineName rest
            (fsSet fs (sinkDest baseDir pipelineName subNum inFile) content) with
        | .error e => .error e
        | .ok (outs, fs') =>
          .ok (sinkDest baseDir pipelineName subNum inFile :: outs, fs')

/-- `BIDSDataSink._list_outputs` (lines 172-185): `zip` silently truncates
to the shorter of the entities and input-file lists. Directory creation is
not modelled (it only affects the filesystem's directory structure). -/
def runBIDSDataSink (fs : FS) (baseDir pipelineName : String)
    (entities : List Entity) (inFiles : List String) :
    Except SinkError (List String × FS) :=
  sinkLoop baseDir pipelineName (entities.zip inFiles) fs

/-- The destination path the specification states for one (entity, input
file) pair:
`<base>/derivatives/fmridenoise/sub-<subject>/<stem>_pipeline-<name><ext>`. -/
def specDest (baseDir pipelineName : String) (p : Entity × String) : String :=
  sinkDest baseDir pipelineName ((List.lookup "subject" p.1).getD "") p.2

/-! Concrete datasets used to evaluate the embedding at specific inputs. -/

/-- A preprocessed bold file of subject 01 that carries a session entity. -/
def fileA : BIDSFile :=
  ⟨"/d/A_bold.nii",
   [("subject","01"),("session","1"),("datatype","func"),("task","rest"),
    ("extension","nii"),("suffix","bold"),("desc","preproc")],
   "pipe", some 2⟩

/-- The unique confound table of `fileA`. -/
def confA : BIDSFile :=
  ⟨"/d/A_conf.tsv",
   [("subject","01"),("session","1"),("datatype","func"),("task","rest"),
    ("extension","tsv"),("suffix","regressors"),("desc","confounds")],
   "pipe", none⟩

/-- A preprocessed bold file of subject 02 without a session entity. -/
def fileB : BIDSFile :=
  ⟨"/d/B_bold.nii",
   [("subject","02"),("datatype","func"),("task","rest"),
    ("extension","nii"),("suffix","bold"),("desc","preproc")],
   "pipe", some 2⟩

/-- The unique confound table of `fileB` (no session entity either). -/
def confB : BIDSFile :=
  ⟨"/d/B_conf.tsv",
   [("subject","02"),("datatype","func"),("task","rest"),
    ("extension","tsv"),("suffix","regressors"),("desc","confounds")],
   "pipe", none⟩

/-- A preprocessed bold file of subject 03 with no confound table at all. -/
def fileC : BIDSFile :=
  ⟨"/d/C_bold.nii",
   [("subject","03"),("datatype","func"),("task","rest"),
    ("extension","nii"),("suffix","bold"),("desc","preproc")],
   "pipe", some 2⟩

/-- Two functional runs, each with exactly one matching confound table;
the first run carries a session entity, the second does not. -/
def dsBug : Dataset :=
  ⟨[fileA, confA, fileB, confB], ["rest"],
   [("/data/derivatives/fp", .ok "pipe")]⟩

/-- `dsBug` plus a third run that has no confound table. -/
def dsBug3 : Dataset :=
  ⟨[fileA, confA, fileB, confB, fileC], ["rest"],
   [("/data/derivatives/fp", .ok "pipe")]⟩

/-- A functional run whose entity filter matches two confound tables. -/
def fileF : BIDSFile :=
  ⟨"/d/F_bold.nii",
   [("subject","01"),("datatype","func"),("task","rest"),
    ("extension","nii"),("suffix","bold"),("desc","preproc")],
   "pipe", some 2⟩

/-- First confound table matching `fileF`. -/
def confC1 : BIDSFile :=
  ⟨"/d/c1.tsv",
   [("subject","01"),("datatype","func"),("task","rest"),
    ("extension","tsv"),("suffix","regressors"),("desc","confounds")],
   "pipe", none⟩

/-- Second confound table matching `fileF`. -/
def confC2 : BIDSFile :=
  ⟨"/d/c2.tsv",
   [("subject","01"),("datatype","func"),("task","rest"),
    ("extension","tsv"),("suffix","regressors"),("desc","confounds")],
   "pipe", none⟩

/-- One functional run with two matching confound tables. -/
def c4ds : Dataset :=
  ⟨[fileF, confC1, confC2], ["rest"],
   [("/data/derivatives/fp", .ok "pipe")]⟩

/-- A dataset for exercising derivative-description resolution: one
derivative with a well-formed description, one whose description lacks the
name field, one malformed, and none for any other path. -/
def dsDesc : Dataset :=
  ⟨[], [],
   [("/data/derivatives/good", .ok "pipe"),
    ("/data/derivatives/nokey", .missingName),
    ("/data/derivatives/bad", .malformed)]⟩

/-! General lemmas about the embedding. -/

/-- A list starts with itself followed by anything. -/
theorem headMatch_append_self (n suf : List Char) :
    headMatch n (n ++ suf) = true := by
  induction n with
  | nil => rfl
  | cons a as ih => simp [headMatch, ih]

/-- The empty needle occurs in every list. -/
theorem hasSub_nil_needle (l : List Char) : hasSub [] l = true := by
  cases l <;> simp [hasSub, headMatch]

/-- A needle occurs in any list that embeds it contiguously. -/
theorem hasSub_append (pre n suf : List Char) :
    hasSub n (pre ++ (n ++ suf)) = true := by
  induction pre with
  | nil =>
    cases n with
    | nil => simpa using hasSub_nil_needle suf
    | cons a as =>
      simp only [List.nil_append, List.cons_append, hasSub, Bool.or_eq_true]
      exact Or.inl (by simpa using headMatch_append_self (a :: as) suf)
  | cons p ps ih => simp [hasSub, ih]

/-- The multiple-regressors warning names the functional file. -/
theorem mentions_mkWarning_fst (a b : String) :
    mentions (mkWarning a b) a = true := by
  have h : (mkWarning a b).data
      = ("Warning: Multiple regressors found for file ").data
        ++ (a.data ++ ((".\nSelecting " ++ b).data)) := by
    simp [mkWarning]
  unfold mentions
  rw [h]
  exact hasSub_append _ _ _

/-- The multiple-regressors warning names the selected confound file. -/
theorem mentions_mkWarning_snd (a b : String) :
    mentions (mkWarning a b) b = true := by
  have h : (mkWarning a b).data
      = ("Warning: Multiple regressors found for file " ++ a
          ++ ".\nSelecting ").data ++ (b.data ++ []) := by
    simp [mkWarning]
  unfold mentions
  rw [h]
  exact hasSub_append _ _ _

/-- Unfolding of the confound query sequence over one loop iteration. -/
theorem confQuerySeq_cons (ds : Dataset) (scope : List String) (f : BIDSFile)
    (rest : List BIDSFile) (fc : QFilter) :
    confQuerySeq ds scope (f :: rest) fc =
      layoutGet ds (some scope) (dictUpdate fc (restrictEntities f.entities))
        :: confQuerySeq ds scope rest (dictUpdate fc (restrictEntities f.entities)) := by
  simp [confQuerySeq, confFilterSeq]

/-- When every confound query of the pairing loop returns at least one file,
the loop succeeds, pairing the i-th functional file with the first file of
the i-th query result, recording the restricted entities per file, and
printing exactly the multiple-match warnings. -/
theorem grabStep_ok_spec (ds : Dataset) (scope : List String) :
    ∀ (files : List BIDSFile) (fc : QFilter),
      (∀ q ∈ confQuerySeq ds scope files fc, q ≠ []) →
      ∃ fcEnd, grabStep ds scope files fc =
        .ok ⟨files.map BIDSFile.path,
             (confQuerySeq ds scope files fc).map headPath,
             files.map fun f => restrictEntities f.entities,
             warningsSpec files (confQuerySeq ds scope files fc),
             fcEnd⟩
  | [], fc, _ => ⟨fc, by simp [grabStep, confQuerySeq, confFilterSeq, warningsSpec]⟩
  | f :: rest, fc, h => by
    rw [confQuerySeq_cons] at h ⊢
    have hhead : layoutGet ds (some scope)
        (dictUpdate fc (restrictEntities f.entities)) ≠ [] := h _ (by simp)
    obtain ⟨c, cs, hq⟩ := List.exists_cons_of_ne_nil hhead
    have htail : ∀ q ∈ confQuerySeq ds scope rest
        (dictUpdate fc (restrictEntities f.entities)), q ≠ [] :=
      fun q hq' => h q (by simp [hq'])
    obtain ⟨fcEnd, hrec⟩ := grabStep_ok_spec ds scope rest
      (dictUpdate fc (restrictEntities f.entities)) htail
    refine ⟨fcEnd, ?_⟩
    rw [hq]
    simp only [grabStep, hq, hrec]
    cases cs <;> simp [warningsSpec, headPath]

/-- A functional file whose query returned several confound files
contributes its warning to the printed warnings. -/
theorem warningsSpec_mem :
    ∀ (files : List BIDSFile) (qs : List (List BIDSFile)) (j : Nat)
      (f : BIDSFile) (q : List BIDSFile),
      files[j]? = some f → qs[j]? = some q → 1 < q.length →
      mkWarning f.path (headPath q) ∈ warningsSpec files qs
  | [], _, j, f, q, hf, _, _ => by simp at hf
  | _ :: _, [], j, f, q, _, hq, _ => by simp at hq
  | f' :: fs, q' :: qs, 0, f, q, hf, hq, hlen => by
    simp at hf hq
    subst hf; subst hq
    simp only [warningsSpec]
    rw [if_neg (by omega)]
    simp
  | f' :: fs, q' :: qs, j + 1, f, q, hf, hq, hlen => by
    simp at hf hq
    have hmem := warningsSpec_mem fs qs j f q hf hq hlen
    simp only [warningsSpec]
    exact List.mem_append_right _ hmem

/-- A successful TR loop returns one entry per task in order, and each
task's value is the `RepetitionTime` of the first file matching the base
functional filter restricted to that task. -/
theorem extractTRs_spec (ds : Dataset) (ffmri : QFilter) :
    ∀ (ts : List String) (l : List (String × Rat)),
      extractTRs ds ffmri ts = .ok l →
      l.map Prod.fst = ts ∧
      ∀ t ∈ ts, List.lookup t l = specTRlookup ds ffmri t
  | [], l, h => by
    simp [extractTRs] at h
    subst h
    simp
  | t :: ts, l, h => by
    rw [extractTRs] at h
    split at h
    · simp at h
    next ex rest hq =>
      split at h
      · simp at h
      next tr hr =>
        split at h
        · simp at h
        next l' hrec =>
          simp at h
          subst h
          obtain ⟨ih1, ih2⟩ := extractTRs_spec ds ffmri ts l' hrec
          refine ⟨by simp [ih1], ?_⟩
          intro u hu
          by_cases hut : u = t
          · subst hut
            simp [List.lookup, specTRlookup, hq, hr]
          · have hu' : u ∈ ts := by
              rcases List.mem_cons.mp hu with h1 | h1
              · exact absurd h1 hut
              · exact h1
            simp only [List.lookup, show (u == t) = false by simp [hut]]
            exact ih2 u hu'

/-- Writing one file changes the lookup at its path and nothing else. -/
theorem lookup_fsSet (fs : FS) (kw v k : String) :
    List.lookup k (fsSet fs kw v) = if k = kw then some v else List.lookup k fs := by
  induction fs with
  | nil =>
    by_cases h : k = kw
    · subst h; simp [fsSet, List.lookup]
    · simp [fsSet, List.lookup, show (k == kw) = false by simp [h], h]
  | cons hd tl ih =>
    obtain ⟨a, b⟩ := hd
    by_cases hak : a = kw
    · subst hak
      simp only [fsSet, beq_self_eq_true, if_true]
      by_cases hka : k = a
      · subst hka; simp [List.lookup]
      · simp [List.lookup, show (k == a) = false by simp [hka], hka]
    · simp only [fsSet, show (a == kw) = false by simp [hak], Bool.false_eq_true,
        if_false]
      by_cases hka : k = a
      · subst hka
        have hkkw : ¬k = kw := hak
        simp [List.lookup, hkkw]
      · simp only [List.lookup, show (k == a) = false by simp [hka]]
        exact ih

/-- When every pair has a subject entity and an existing source, the sink
loop succeeds, produces exactly the spec's destination path per pair in
order, and writes nothing outside those destinations. -/
theorem sinkLoop_shape (base pipe : String) :
    ∀ (pairs : List (Entity × String)) (fs : FS),
      (∀ p ∈ pairs, (List.lookup "subject" p.1).isSome = true) →
      (∀ p ∈ pairs, (List.lookup p.2 fs).isSome = true) →
      ∃ fs', sinkLoop base pipe pairs fs =
          .ok (pairs.map (specDest base pipe), fs') ∧
        ∀ k, k ∉ pairs.map (specDest base pipe) →
          List.lookup k fs' = List.lookup k fs
  | [], fs, _, _ => ⟨fs, by simp [sinkLoop], fun k _ => rfl⟩
  | (e, fi) :: rest, fs, h1, h2 => by
    obtain ⟨sub, hsub⟩ :=
      Option.isSome_iff_exists.mp (h1 (e, fi) (List.mem_cons_self _ _))
    obtain ⟨content, hcontent⟩ :=
      Option.isSome_iff_exists.mp (h2 (e, fi) (List.mem_cons_self _ _))
    have hsub' : List.lookup "subject" e = some sub := hsub
    have hcontent' : List.lookup fi fs = some content := hcontent
    have h2' : ∀ p ∈ rest,
        (List.lookup p.2 (fsSet fs (sinkDest base pipe sub fi) content)).isSome
          = true := by
      intro p hp
      rw [lookup_fsSet]
      by_cases hd : p.2 = sinkDest base pipe sub fi
      · simp [hd]
      · rw [if_neg hd]
        exact h2 p (by simp [hp])
    obtain ⟨fs', hrec, hpres⟩ := sinkLoop_shape base pipe rest
      (fsSet fs (sinkDest base pipe sub fi) content)
      (fun p hp => h1 p (by simp [hp])) h2'
    refine ⟨fs', ?_, ?_⟩
    · simp only [sinkLoop, hsub', hcontent', hrec, List.map_cons]
      simp [specDest, hsub']
    · intro k hk
      simp only [List.map_cons, List.mem_cons, not_or] at hk
      obtain ⟨hk1, hk2⟩ := hk
      rw [hpres k hk2, lookup_fsSet, if_neg ?_]
      simp only [specDest, hsub', Option.getD_some] at hk1
      exact hk1

/-- Under the extra guarantees that the destinations are pairwise distinct
and never collide with a source path, each destination's final contents
equal its source's original contents. -/
theorem sinkLoop_content (base pipe : String) :
    ∀ (pairs : List (Entity × String)) (fs : FS),
      (∀ p ∈ pairs, (List.lookup "subject" p.1).isSome = true) →
      (∀ p ∈ pairs, (List.lookup p.2 fs).isSome = true) →
      (pairs.map (specDest base pipe)).Nodup →
      (∀ p ∈ pairs, ∀ p' ∈ pairs, specDest base pipe p ≠ p'.2) →
      ∃ fs', sinkLoop base pipe pairs fs =
          .ok (pairs.map (specDest base pipe), fs') ∧
        (∀ p ∈ pairs,
          List.lookup (specDest base pipe p) fs' = List.lookup p.2 fs) ∧
        ∀ k, k ∉ pairs.map (specDest base pipe) →
          List.lookup k fs' = List.lookup k fs
  | [], fs, _, _, _, _ => ⟨fs, by simp [sinkLoop], by simp, fun k _ => rfl⟩
  | (e, fi) :: rest, fs, h1, h2, h3, h4 => by
    obtain ⟨sub, hsub⟩ :=
      Option.isSome_iff_exists.mp (h1 (e, fi) (List.mem_cons_self _ _))
    obtain ⟨content, hcontent⟩ :=
      Option.isSome_iff_exists.mp (h2 (e, fi) (List.mem_cons_self _ _))
    have hsub' : List.lookup "subject" e = some sub := hsub
    have hcontent' : List.lookup fi fs = some content := hcontent
    have hdest : specDest base pipe (e, fi) = sinkDest base pipe sub fi := by
      simp [specDest, hsub']
    have hdisj0 : ∀ p ∈ rest, sinkDest base pipe sub fi ≠ p.2 := by
      intro p hp
      rw [← hdest]
      exact h4 (e, fi) (List.mem_cons_self _ _) p (List.mem_cons_of_mem _ hp)
    have h2' : ∀ p ∈ rest,
        (List.lookup p.2 (fsSet fs (sinkDest base pipe sub fi) content)).isSome
          = true := by
      intro p hp
      rw [lookup_fsSet, if_neg (fun h => hdisj0 p hp h.symm)]
      exact h2 p (List.mem_cons_of_mem _ hp)
    obtain ⟨fs', hrec, hcont, hpres⟩ := sinkLoop_content base pipe rest
      (fsSet fs (sinkDest base pipe sub fi) content)
      (fun p hp => h1 p (List.mem_cons_of_mem _ hp)) h2'
      (by simpa using h3.of_cons)
      (fun p hp p' hp' =>
        h4 p (List.mem_cons_of_mem _ hp) p' (List.mem_cons_of_mem _ hp'))
    have hnotin : specDest base pipe (e, fi) ∉ rest.map (specDest base pipe) := by
      have := h3
      simp only [List.map_cons, List.nodup_cons] at this
      exact this.1
    refine ⟨fs', ?_, ?_, ?_⟩
    · simp only [sinkLoop, hsub', hcontent', hrec, List.map_cons]
      simp [specDest, hsub']
    · intro p hp
      rcases List.mem_cons.mp hp with h | h
      · subst h
        rw [hpres _ (by simpa [hdest] using hnotin), hdest, lookup_fsSet,
          if_pos rfl, hcontent']
      · rw [hcont p h, lookup_fsSet,
          if_neg (fun hx => hdisj0 p h hx.symm)]
    · intro k hk
      simp only [List.map_cons, List.mem_cons, not_or] at hk
      obtain ⟨hk1, hk2⟩ := hk
      rw [hpres k hk2, lookup_fsSet, if_neg (fun hx => hk1 (by rw [hx, hdest]))]

/-- Task validation succeeds when every requested task is indexed. -/
theorem checkTasks_ok (ds : Dataset) :
    ∀ ts : List String, (∀ x ∈ ts, ds.tasks.contains x = true) →
      checkTasks ds ts = .ok ()
  | [], _ => rfl
  | t :: ts, h => by
    rw [checkTasks, if_pos (h t (List.mem_cons_self _ _))]
    exact checkTasks_ok ds ts fun x hx => h x (List.mem_cons_of_mem _ hx)

/-- Task validation fails with a `taskNotFound` naming an absent requested
task when any requested task is absent from the index. -/
theorem checkTasks_err (ds : Dataset) :
    ∀ (ts : List String) (t : String), t ∈ ts → ds.tasks.contains t = false →
      ∃ u, u ∈ ts ∧ ds.tasks.contains u = false ∧
        checkTasks ds ts = .error (.taskNotFound u)
  | [], t, ht, _ => absurd ht (List.not_mem_nil t)
  | x :: ts, t, ht, hc => by
    by_cases hx : ds.tasks.contains x = true
    · have htx : t ≠ x := fun h => by rw [h, hx] at hc; cases hc
      have ht' : t ∈ ts := by
        rcases List.mem_cons.mp ht with h | h
        · exact absurd h htx
        · exact h
      obtain ⟨u, hu1, hu2, hu3⟩ := checkTasks_err ds ts t ht' hc
      exact ⟨u, List.mem_cons_of_mem _ hu1, hu2, by rw [checkTasks, if_pos hx, hu3]⟩
    · refine ⟨x, List.mem_cons_self _ _, by simpa using hx, ?_⟩
      rw [checkTasks, if_neg hx]

/-! The claims. -/

/-- Claim C1. The claim says: on a dataset whose N preprocessed functional
files each have exactly one matching confound file, the grabber returns
three lists of length N with matching indices. The code violates this:
`dsBug` has two functional files, each with exactly one confound file
matching the fixed confound filters plus that file's restricted entities
(the spec's matching rule, `perFileConfFilter`), yet the call raises
`FileNotFoundError` for the second file and returns nothing, because the
in-place `filter_conf.update` of line 111 leaks the first file's session
entity into the second file's query. -/
theorem claimC1_code_bug :
    layoutGet dsBug (some ["pipe"]) (filterFmri ["rest"]) = [fileA, fileB] ∧
    layoutGet dsBug (some ["pipe"]) (perFileConfFilter fileA) = [confA] ∧
    layoutGet dsBug (some ["pipe"]) (perFileConfFilter fileB) = [confB] ∧
    runBIDSGrab dsBug "/data" none (some (.list ["fp"])) =
      .error (.regressorNotFound "/d/B_bold.nii") := by decide

/-- Claim C2. The claim says: each functional file's confound re-query is
filtered by exactly that file's restricted entity mapping plus the fixed
confound filters, independently of previously processed files. The code
violates this: in `dsBug` the dict used for the second file's query still
carries `session = "1"` from the first file (replayed by `confFilterSeq`),
while the second file's own restricted entities have no session key, and
the call consequently fails. -/
theorem claimC2_code_bug :
    List.lookup "session" ((confFilterSeq [fileA, fileB] confFilter0).getD 1 [])
      = some (.one "1") ∧
    List.lookup "session" (perFileConfFilter fileB) = none ∧
    runBIDSGrab dsBug "/data" none (some (.list ["fp"])) =
      .error (.regressorNotFound "/d/B_bold.nii") := by decide

/-- Claim C3. The claim says: when a functional file has zero matching
confound files, the call fails with a not-found error naming that file.
The code violates the naming: in `dsBug3` the file with zero matching
confound files is `fileC`, but the call fails naming `fileB` — whose own
entity filter matches exactly one confound file — because of the stale
session entity leaked into its query by line 111. -/
theorem claimC3_code_bug :
    layoutGet dsBug3 (some ["pipe"]) (filterFmri ["rest"]) = [fileA, fileB, fileC] ∧
    layoutGet dsBug3 (some ["pipe"]) (perFileConfFilter fileC) = [] ∧
    layoutGet dsBug3 (some ["pipe"]) (perFileConfFilter fileB) = [confB] ∧
    runBIDSGrab dsBug3 "/data" none (some (.list ["fp"])) =
      .error (.regressorNotFound "/d/B_bold.nii") := by decide

/-- Claim C4, counterexample to the claim as stated. In `c4ds` the one
functional file has K = 2 matching confound files; the call succeeds and
selects the first, but the single emitted warning does not name the
discarded alternative `/d/c2.tsv` anywhere in its text — it names the
functional file and the selected file instead. -/
theorem claimC4_counterexample :
    runBIDSGrab c4ds "/data" none (some (.list ["fp"])) =
      .ok ⟨["/d/F_bold.nii"], ["/d/c1.tsv"],
           [[("subject", "01"), ("datatype", "func"), ("task", "rest")]],
           [("rest", 2)],
           [mkWarning "/d/F_bold.nii" "/d/c1.tsv"]⟩ ∧
    layoutGet c4ds (some ["pipe"]) (perFileConfFilter fileF) = [confC1, confC2] ∧
    mentions (mkWarning "/d/F_bold.nii" "/d/c1.tsv") "/d/c2.tsv" = false := by
  decide

/-- Claim C4 as amended: when scope, task and TR resolution succeed and
every confound query of the loop returns at least one file, a functional
file whose query returns more than one confound file still yields success;
the first file of the query's returned order is selected at its index, and
a warning is emitted that names the functional file and the selected
confound file (not the discarded alternatives). -/
theorem claimC4 (ds : Dataset) (bidsDir : String) (taskIn : Option (List String))
    (derIn : Option DerivInput) (scope tasks : List String)
    (trs : List (String × Rat)) (j : Nat) (f : BIDSFile) (q : List BIDSFile)
    (hscope : resolveScope ds ((normalizeDerivatives derIn).map fun d =>
      joinPath (joinPath bidsDir "derivatives") d) = .ok scope)
    (htasks : resolveTasks ds taskIn = .ok tasks)
    (htrs : extractTRs ds (filterFmri tasks) tasks = .ok trs)
    (hne : ∀ q' ∈ confQuerySeq ds scope
      (layoutGet ds (some scope) (filterFmri tasks)) confFilter0, q' ≠ [])
    (hf : (layoutGet ds (some scope) (filterFmri tasks))[j]? = some f)
    (hq : (confQuerySeq ds scope (layoutGet ds (some scope) (filterFmri tasks))
      confFilter0)[j]? = some q)
    (hlen : 1 < q.length) :
    ∃ r, runBIDSGrab ds bidsDir taskIn derIn = .ok r ∧
      r.fmriPrep[j]? = some f.path ∧
      r.confRaw[j]? = some (headPath q) ∧
      mkWarning f.path (headPath q) ∈ r.warnings ∧
      mentions (mkWarning f.path (headPath q)) f.path = true ∧
      mentions (mkWarning f.path (headPath q)) (headPath q) = true := by
  obtain ⟨fcEnd, hstep⟩ := grabStep_ok_spec ds scope
    (layoutGet ds (some scope) (filterFmri tasks)) confFilter0 hne
  refine ⟨⟨(layoutGet ds (some scope) (filterFmri tasks)).map BIDSFile.path,
      (confQuerySeq ds scope (layoutGet ds (some scope) (filterFmri tasks))
        confFilter0).map headPath,
      (layoutGet ds (some scope) (filterFmri tasks)).map fun f =>
        restrictEntities f.entities,
      trs,
      warningsSpec (layoutGet ds (some scope) (filterFmri tasks))
        (confQuerySeq ds scope (layoutGet ds (some scope) (filterFmri tasks))
          confFilter0)⟩,
    ?_, ?_, ?_, ?_, mentions_mkWarning_fst _ _, mentions_mkWarning_snd _ _⟩
  · simp only [runBIDSGrab, hscope, htasks, hstep, htrs]
  · rw [List.getElem?_map, hf]; rfl
  · rw [List.getElem?_map, hq]; rfl
  · exact warningsSpec_mem _ _ j f q hf hq hlen

/-- Claim C5. When scope, task and TR resolution succeed and every confound
query returns at least one file, the grabber succeeds and its TR mapping
has exactly the resolved tasks as keys, in order, with each task's value
the `RepetitionTime` metadata of the first functional file matching the
base functional filter restricted to that task (`specTRlookup`). -/
theorem claimC5 (ds : Dataset) (bidsDir : String) (taskIn : Option (List String))
    (derIn : Option DerivInput) (scope tasks : List String)
    (trs : List (String × Rat))
    (hscope : resolveScope ds ((normalizeDerivatives derIn).map fun d =>
      joinPath (joinPath bidsDir "derivatives") d) = .ok scope)
    (htasks : resolveTasks ds taskIn = .ok tasks)
    (htrs : extractTRs ds (filterFmri tasks) tasks = .ok trs)
    (hne : ∀ q' ∈ confQuerySeq ds scope
      (layoutGet ds (some scope) (filterFmri tasks)) confFilter0, q' ≠ []) :
    ∃ r, runBIDSGrab ds bidsDir taskIn derIn = .ok r ∧
      r.trDict.map Prod.fst = tasks ∧
      ∀ t ∈ tasks, List.lookup t r.trDict =
        specTRlookup ds (filterFmri tasks) t := by
  obtain ⟨fcEnd, hstep⟩ := grabStep_ok_spec ds scope
    (layoutGet ds (some scope) (filterFmri tasks)) confFilter0 hne
  obtain ⟨h1, h2⟩ := extractTRs_spec ds (filterFmri tasks) tasks trs htrs
  refine ⟨⟨(layoutGet ds (some scope) (filterFmri tasks)).map BIDSFile.path,
      (confQuerySeq ds scope (layoutGet ds (some scope) (filterFmri tasks))
        confFilter0).map headPath,
      (layoutGet ds (some scope) (filterFmri tasks)).map fun f =>
        restrictEntities f.entities,
      trs,
      warningsSpec (layoutGet ds (some scope) (filterFmri tasks))
        (confQuerySeq ds scope (layoutGet ds (some scope) (filterFmri tasks))
          confFilter0)⟩,
    ?_, h1, h2⟩
  simp only [runBIDSGrab, hscope, htasks, hstep, htrs]

/-- Claim C6. Applied to M (entity, input file) pairs — equal-length lists
whose entities all carry a subject, whose sources all exist, whose
destinations are pairwise distinct and distinct from every source — the
writer succeeds and returns exactly M destination paths in input order,
each equal to
`<base>/derivatives/fmridenoise/sub-<subject>/<stem>_pipeline-<name><ext>`
(`specDest`), and each destination's contents equal its source's. -/
theorem claimC6 (fs : FS) (base pipe : String) (entities : List Entity)
    (inFiles : List String)
    (hlen : entities.length = inFiles.length)
    (h1 : ∀ p ∈ entities.zip inFiles, (List.lookup "subject" p.1).isSome = true)
    (h2 : ∀ p ∈ entities.zip inFiles, (List.lookup p.2 fs).isSome = true)
    (h3 : ((entities.zip inFiles).map (specDest base pipe)).Nodup)
    (h4 : ∀ p ∈ entities.zip inFiles, ∀ p' ∈ entities.zip inFiles,
      specDest base pipe p ≠ p'.2) :
    ∃ fs', runBIDSDataSink fs base pipe entities inFiles =
        .ok ((entities.zip inFiles).map (specDest base pipe), fs') ∧
      ((entities.zip inFiles).map (specDest base pipe)).length = inFiles.length ∧
      ∀ p ∈ entities.zip inFiles,
        List.lookup (specDest base pipe p) fs' = List.lookup p.2 fs := by
  obtain ⟨fs', hrun, hcont, _⟩ :=
    sinkLoop_content base pipe (entities.zip inFiles) fs h1 h2 h3 h4
  exact ⟨fs', hrun, by simp [hlen], hcont⟩

/-- Claim C7. A derivative path with no `dataset_description.json` resolves
to the configuration error `descMissing`; one whose document lacks
`PipelineDescription.Name` resolves to the schema error `descNameMissing`;
one whose document is otherwise malformed resolves to `descMalformed`; and
any such failing derivative among the requested paths makes the whole
scope resolution fail. -/
theorem claimC7 (ds : Dataset) (p : String) (paths : List String) :
    (List.lookup p ds.descriptions = none →
      resolveDeriv ds p = .error (.descMissing p)) ∧
    (List.lookup p ds.descriptions = some .malformed →
      resolveDeriv ds p = .error (.descMalformed p)) ∧
    (List.lookup p ds.descriptions = some .missingName →
      resolveDeriv ds p = .error (.descNameMissing p)) ∧
    ((∃ e, resolveDeriv ds p = .error e) → p ∈ paths →
      ∃ e, resolveScope ds paths = .error e) := by
  refine ⟨?_, ?_, ?_, ?_⟩
  · intro h; rw [resolveDeriv, h]
  · intro h; rw [resolveDeriv, h]
  · intro h; rw [resolveDeriv, h]
  · intro hbad hmem
    induction paths with
    | nil => exact absurd hmem (List.not_mem_nil p)
    | cons q rest ih =>
      cases hq : resolveDeriv ds q with
      | error e => exact ⟨e, by rw [resolveScope, hq]⟩
      | ok n =>
        have hp : p ∈ rest := by
          rcases List.mem_cons.mp hmem with h | h
          · subst h
            obtain ⟨e, he⟩ := hbad
            rw [he] at hq
            cases hq
          · exact h
        obtain ⟨e, he⟩ := ih hp
        exact ⟨e, by rw [resolveScope, hq, he]⟩

/-- Claim C8. With no task list supplied, the resolved tasks are every task
of the index; with a supplied list whose tasks are all indexed, the
resolved tasks are exactly that list; with any requested task absent from
the index, resolution fails with a `taskNotFound` error naming an absent
requested task. -/
theorem claimC8 (ds : Dataset) (ts : List String) (t : String) :
    (resolveTasks ds none = .ok ds.tasks) ∧
    ((∀ x ∈ ts, ds.tasks.contains x = true) →
      resolveTasks ds (some ts) = .ok ts) ∧
    (t ∈ ts → ds.tasks.contains t = false →
      ∃ u, u ∈ ts ∧ ds.tasks.contains u = false ∧
        resolveTasks ds (some ts) = .error (.taskNotFound u)) := by
  refine ⟨rfl, ?_, ?_⟩
  · intro h
    rw [resolveTasks, checkTasks_ok ds ts h]
  · intro ht hc
    obtain ⟨u, hu1, hu2, hu3⟩ := checkTasks_err ds ts t ht hc
    exact ⟨u, hu1, hu2, by rw [resolveTasks, hu3]⟩

/-- Claim C9. When the entities list is shorter than the input-file list,
the writer still succeeds (the zip silently truncates), the returned
destination list's length is the minimum of the two input lengths, and
nothing outside the returned destinations is written — the trailing input
files are not copied and no error is reported. -/
theorem claimC9 (fs : FS) (base pipe : String) (entities : List Entity)
    (inFiles : List String)
    (h1 : ∀ p ∈ entities.zip inFiles, (List.lookup "subject" p.1).isSome = true)
    (h2 : ∀ p ∈ entities.zip inFiles, (List.lookup p.2 fs).isSome = true) :
    ∃ outs fs', runBIDSDataSink fs base pipe entities inFiles = .ok (outs, fs') ∧
      outs.length = min entities.length inFiles.length ∧
      ∀ k, k ∉ outs → List.lookup k fs' = List.lookup k fs := by
  obtain ⟨fs', hrun, hpres⟩ :=
    sinkLoop_shape base pipe (entities.zip inFiles) fs h1 h2
  exact ⟨_, fs', hrun, by simp, hpres⟩

/-- Claim C10. An unsupplied `derivatives` input defaults to the single
derivative name `fmriprep`, and a single string is treated as the
one-element list of that string. -/
theorem claimC10 :
    normalizeDerivatives none = ["fmriprep"] ∧
    ∀ s, normalizeDerivatives (some (.str s)) = [s] :=
  ⟨rfl, fun _ => rfl⟩

/-! Witnesses: the claim theorems instantiated at concrete inputs with
every hypothesis discharged by evaluation. -/

/-- Witness for claim C4 at `c4ds`. -/
theorem claimC4_witness :
    ∃ r, runBIDSGrab c4ds "/data" none (some (.list ["fp"])) = .ok r ∧
      r.fmriPrep[0]? = some fileF.path ∧
      r.confRaw[0]? = some (headPath [confC1, confC2]) ∧
      mkWarning fileF.path (headPath [confC1, confC2]) ∈ r.warnings ∧
      mentions (mkWarning fileF.path (headPath [confC1, confC2]))
        fileF.path = true ∧
      mentions (mkWarning fileF.path (headPath [confC1, confC2]))
        (headPath [confC1, confC2]) = true :=
  claimC4 c4ds "/data" none (some (.list ["fp"])) ["pipe"] ["rest"]
    [("rest", 2)] 0 fileF [confC1, confC2] (by decide) (by decide) (by decide)
    (by decide) (by decide) (by decide) (by decide)

/-- Witness for claim C5 at `c4ds`. -/
theorem claimC5_witness :
    ∃ r, runBIDSGrab c4ds "/data" none (some (.list ["fp"])) = .ok r ∧
      r.trDict.map Prod.fst = ["rest"] ∧
      ∀ t ∈ ["rest"], List.lookup t r.trDict =
        specTRlookup c4ds (filterFmri ["rest"]) t :=
  claimC5 c4ds "/data" none (some (.list ["fp"])) ["pipe"] ["rest"]
    [("rest", 2)] (by decide) (by decide) (by decide) (by decide)

/-- Witness for claim C6: the spec's own concrete scenario. -/
theorem claimC6_witness :
    ∃ fs', runBIDSDataSink [("/tmp/sub-02_task-rest_bold.nii.gz", "DATA")]
        "/out" "myproc" [[("subject", "02")]]
        ["/tmp/sub-02_task-rest_bold.nii.gz"] =
      .ok (([[("subject", "02")]].zip
          ["/tmp/sub-02_task-rest_bold.nii.gz"]).map
          (specDest "/out" "myproc"), fs') ∧
      (([[("subject", "02")]].zip ["/tmp/sub-02_task-rest_bold.nii.gz"]).map
          (specDest "/out" "myproc")).length =
        ["/tmp/sub-02_task-rest_bold.nii.gz"].length ∧
      ∀ p ∈ [[("subject", "02")]].zip ["/tmp/sub-02_task-rest_bold.nii.gz"],
        List.lookup (specDest "/out" "myproc" p) fs' =
          List.lookup p.2 [("/tmp/sub-02_task-rest_bold.nii.gz", "DATA")] :=
  claimC6 [("/tmp/sub-02_task-rest_bold.nii.gz", "DATA")] "/out" "myproc"
    [[("subject", "02")]] ["/tmp/sub-02_task-rest_bold.nii.gz"]
    (by decide) (by decide) (by decide) (by decide) (by decide)

/-- Witness for claim C7 at `dsDesc`. -/
theorem claimC7_witness :
    resolveDeriv dsDesc "/data/derivatives/x" =
      .error (.descMissing "/data/derivatives/x") ∧
    resolveDeriv dsDesc "/data/derivatives/bad" =
      .error (.descMalformed "/data/derivatives/bad") ∧
    resolveDeriv dsDesc "/data/derivatives/nokey" =
      .error (.descNameMissing "/data/derivatives/nokey") ∧
    ∃ e, resolveScope dsDesc
      ["/data/derivatives/good", "/data/derivatives/nokey"] = .error e :=
  ⟨(claimC7 dsDesc "/data/derivatives/x" []).1 (by decide),
   (claimC7 dsDesc "/data/derivatives/bad" []).2.1 (by decide),
   (claimC7 dsDesc "/data/derivatives/nokey" []).2.2.1 (by decide),
   (claimC7 dsDesc "/data/derivatives/nokey"
      ["/data/derivatives/good", "/data/derivatives/nokey"]).2.2.2
     ⟨_, (claimC7 dsDesc "/data/derivatives/nokey" []).2.2.1 (by decide)⟩
     (by decide)⟩

/-- Witness for claim C8 at `dsBug` (whose index knows only `rest`). -/
theorem claimC8_witness :
    (resolveTasks dsBug none = .ok ["rest"]) ∧
    (resolveTasks dsBug (some ["rest"]) = .ok ["rest"]) ∧
    (∃ u, u ∈ ["nback"] ∧ dsBug.tasks.contains u = false ∧
      resolveTasks dsBug (some ["nback"]) = .error (.taskNotFound u)) :=
  ⟨(claimC8 dsBug [] "x").1,
   (claimC8 dsBug ["rest"] "x").2.1 (by decide),
   (claimC8 dsBug ["nback"] "nback").2.2 (by decide) (by decide)⟩

/-- Witness for claim C9: one entity, two input files, only the first
copied. -/
theorem claimC9_witness :
    ∃ outs fs', runBIDSDataSink [("/tmp/a.nii", "X")] "/out" "p"
        [[("subject", "03")]] ["/tmp/a.nii", "/tmp/b.nii"] = .ok (outs, fs') ∧
      outs.length = min [[("subject", "03")]].length
        ["/tmp/a.nii", "/tmp/b.nii"].length ∧
      ∀ k, k ∉ outs → List.lookup k fs' = List.lookup k [("/tmp/a.nii", "X")] :=
  claimC9 [("/tmp/a.nii", "X")] "/out" "p" [[("subject", "03")]]
    ["/tmp/a.nii", "/tmp/b.nii"] (by decide) (by decide)
